import Mathlib

/-!
Verification of the timatch Discord bot's match-tracking core.

This file is a shallow embedding, in Lean 4, of the tracking logic of the
timatch repository: the live-game classifier `isGameStarted`, the bot state
(`matchesDrafting` / `matchesStarted` / `matchesFinished` phase sets, the
`gameNumbers` cache and the `finishedQueue`), the three per-cycle operations
`updateLiveGames`, `updateFinishedGames` and `fetchFinishedMatchDetails`,
the guild-channel registry, the steam API client's `getJSON` / `checkResult`
error discipline, and the exponential back-off of the poll loop.

Conventions of the embedding:
* Go `int64` / `int` values (match ids, game numbers, scores) are `Int`.
* Go `float32` durations are `ℚ`; only comparison against `0` is performed,
  which is exact on the values involved.
* Go `map[int64]struct{}` phase sets are `Finset ℤ` (`len` is `Finset.card`).
* Go `map[int64]int` (the game-number cache) and `map[channelID]guildID`
  (the channel registry) are association lists with map-style lookup and
  overwrite-on-insert; the registry keeps at most one entry per channel key.
* Times (`time.Time` instants) are `Int` seconds; `time.Since(t)` at instant
  `now` is `now - t`; `10 * time.Minute` is `600`, `15 * time.Minute` is
  `900`, `MatchUpdateInterval` (60 seconds) is `60`.
* Effectful fetches are oracles passed as explicit arguments: the live-games
  fetch is an `Option (List LiveLeagueGame)` (`none` = error), the history
  fetch an `Option (List Int)`, the per-match details fetch a function
  `Int → Option MatchDetails`.
-/

namespace Timatch

/-- One team's scoreboard entry of a live league game
(`LiveLeagueGameScoreboardTeam`): hero ids of bans, picks and players.
Only `picks` is ever read by the tracking logic. -/
structure LiveLeagueGameScoreboardTeam where
  bans : List Int := []
  picks : List Int := []
  players : List Int := []
deriving DecidableEq

/-- Scoreboard of a live league game (`LiveLeagueGameScoreboard`). -/
structure LiveLeagueGameScoreboard where
  duration : ℚ := 0
  radiant : LiveLeagueGameScoreboardTeam := {}
  dire : LiveLeagueGameScoreboardTeam := {}
deriving DecidableEq

/-- A live league game as returned by the GetLiveLeagueGames endpoint
(`LiveLeagueGame`). -/
structure LiveLeagueGame where
  radiantTeamName : String := ""
  direTeamName : String := ""
  gameNumber : Int := 0
  matchID : Int
  scoreboard : LiveLeagueGameScoreboard := {}
deriving DecidableEq

/-- `isGameStarted` tests if a game is past the drafting phase: elapsed
duration strictly positive, or at least 9 picks across both teams. -/
def isGameStarted (game : LiveLeagueGame) : Bool :=
  if game.scoreboard.duration > 0 then
    true
  else if game.scoreboard.dire.picks.length + game.scoreboard.radiant.picks.length ≥ 9 then
    true
  else
    false

/-- The channel registry: each discord channel id maps to the guild it is
associated with (`bot.channels : map[channelID]guildID`), embedded as an
association list with at most one entry per channel key. -/
abbrev Channels := List (String × String)

/-- `addGuildChannel` adds a channel id, associated with the given guild id
(`bot.channels[channelID] = guildID`, a map assignment: any previous entry
for the same channel key is overwritten). -/
def addGuildChannel (guild channel : String) (channels : Channels) : Channels :=
  (channel, guild) :: channels.filter (fun p => p.1 ≠ channel)

/-- `removeGuildChannels` removes every channel associated with the guild id
(the `delete` loop over `bot.channels`). -/
def removeGuildChannels (guild : String) (channels : Channels) : Channels :=
  channels.filter (fun p => p.2 ≠ guild)

/-- `capWait` is the cap applied to `fetchWait` at the end of each poll-loop
iteration: `if fetchWait > 15*time.Minute { fetchWait = 15*time.Minute }`.
Time in seconds, so the ceiling is 900. -/
def capWait (w : Nat) : Nat :=
  if w > 900 then 900 else w

/-- `nextFetchWait` is one iteration of the poll loop's wait computation:
on fetch error `fetchWait *= 2`, otherwise `fetchWait = MatchUpdateInterval`
(60 seconds); then the 15-minute cap is applied. -/
def nextFetchWait (prev : Nat) (fetchErr : Bool) : Nat :=
  capWait (if fetchErr then prev * 2 else 60)

/-- `runWaits` simulates the poll loop of `bot.run` over a sequence of fetch
outcomes (`true` = the GetLiveLeagueGames call failed), emitting the wait
slept before each next fetch, starting from the stored `fetchWait` value. -/
def runWaits : List Bool → Nat → List Nat
  | [], _ => []
  | e :: es, prev =>
    nextFetchWait prev e :: runWaits es (nextFetchWait prev e)

/-- Match details as returned by the GetMatchDetails endpoint
(`MatchDetails`). -/
structure MatchDetails where
  radiantWin : Bool
  radiantName : String
  direName : String
  radiantScore : Int
  direScore : Int
deriving DecidableEq

/-- An entry of the finished-match detail-fetch queue
(`finishedQueueEntry{MatchID, AddedAt}`); `addedAt` is the `time.Now()`
instant (seconds) at which the entry was enqueued. -/
structure FinishedQueueEntry where
  matchID : Int
  addedAt : Int
deriving DecidableEq

/-- A rendered finished-match outcome (`matchesFinishedDataItem`). -/
structure MatchesFinishedDataItem where
  gameNumber : Int
  winnerName : String
  loserName : String
  winnerScore : Int
  loserScore : Int
deriving DecidableEq

/-- The match-tracking state owned by the bot: the three phase-membership
maps, the game-number cache and the finished-match queue. -/
structure BotState where
  matchesDrafting : Finset ℤ
  matchesStarted : Finset ℤ
  matchesFinished : Finset ℤ
  gameNumbers : List (Int × Int)
  finishedQueue : List FinishedQueueEntry
deriving DecidableEq

/-- The state of a freshly constructed bot (`NewBot`): all maps and the
queue empty. -/
def initState : BotState :=
  { matchesDrafting := ∅
    matchesStarted := ∅
    matchesFinished := ∅
    gameNumbers := []
    finishedQueue := [] }

/-- Go-map assignment on the game-number cache:
`bot.gameNumbers[matchID] = gameNumber`. -/
def setGameNumber (gns : List (Int × Int)) (m v : Int) : List (Int × Int) :=
  (m, v) :: gns.filter (fun p => p.1 ≠ m)

/-- Go-map lookup on the game-number cache: `bot.gameNumbers[matchID]`,
yielding the zero value `0` for an absent key. -/
def getGameNumber (gns : List (Int × Int)) (m : Int) : Int :=
  match gns.lookup m with
  | some v => v
  | none => 0

/-- The per-game loop body of `updateLiveGames`, folded over the fetched
snapshot in order: record the game number; classify with `isGameStarted`;
a not-started game not yet in `matchesDrafting` is added to it and emitted
in `newDrafting`; a started game not yet in `matchesStarted` is added to it
and emitted in `newStarted`. Returns the final state together with the
`newDrafting` and `newStarted` lists, in snapshot order. -/
def processLiveGames : List LiveLeagueGame → BotState →
    BotState × List LiveLeagueGame × List LiveLeagueGame
  | [], s => (s, [], [])
  | game :: rest, s =>
    let s1 : BotState :=
      { s with gameNumbers := setGameNumber s.gameNumbers game.matchID game.gameNumber }
    if ¬ isGameStarted game then
      if game.matchID ∈ s1.matchesDrafting then
        processLiveGames rest s1
      else
        let out := processLiveGames rest
          { s1 with matchesDrafting := insert game.matchID s1.matchesDrafting }
        (out.1, game :: out.2.1, out.2.2)
    else
      if game.matchID ∈ s1.matchesStarted then
        processLiveGames rest s1
      else
        let out := processLiveGames rest
          { s1 with matchesStarted := insert game.matchID s1.matchesStarted }
        (out.1, out.2.1, game :: out.2.2)

/-- `updateLiveGames`: fetch the live snapshot (the oracle argument; `none`
models a `GetLiveLeagueGames` error, which leaves the state untouched and
emits nothing), then process it with `processLiveGames`. -/
def updateLiveGames (res : Option (List LiveLeagueGame)) (s : BotState) :
    BotState × List LiveLeagueGame × List LiveLeagueGame :=
  match res with
  | none => (s, [], [])
  | some games => processLiveGames games s

/-- The per-match loop body of `updateFinishedGames`, folded over the
fetched match-history result: a match that is in `matchesStarted` and not
yet in `matchesFinished` is added to `matchesFinished` and one
`finishedQueueEntry` with `AddedAt = now` is appended to the queue. -/
def processHistory (now : Int) : List Int → BotState → BotState
  | [], s => s
  | m :: rest, s =>
    if m ∈ s.matchesStarted ∧ m ∉ s.matchesFinished then
      processHistory now rest
        { s with matchesFinished := insert m s.matchesFinished
                 finishedQueue := s.finishedQueue ++ [⟨m, now⟩] }
    else
      processHistory now rest s

/-- `updateFinishedGames`: if every known started match is already finished
(`len(matchesStarted) == len(matchesFinished)`) the match-history fetch is
skipped entirely; otherwise the history is fetched (the oracle argument;
`none` models a `GetMatchHistory` error, leaving the state untouched) and
processed with `processHistory`. -/
def updateFinishedGames (res : Option (List Int)) (now : Int) (s : BotState) : BotState :=
  if s.matchesStarted.card = s.matchesFinished.card then
    s
  else
    match res with
    | none => s
    | some ms => processHistory now ms s

/-- The outcome rendering of `fetchFinishedMatchDetails`: winner and loser
names and scores are the radiant and dire fields respectively when
`RadiantWin` holds, and swapped otherwise; the game number is the cached
value. -/
def renderFinished (gameNumber : Int) (details : MatchDetails) : MatchesFinishedDataItem :=
  if details.radiantWin then
    { gameNumber := gameNumber
      winnerName := details.radiantName
      loserName := details.direName
      winnerScore := details.radiantScore
      loserScore := details.direScore }
  else
    { gameNumber := gameNumber
      winnerName := details.direName
      loserName := details.radiantName
      winnerScore := details.direScore
      loserScore := details.radiantScore }

/-- The per-entry loop body of `fetchFinishedMatchDetails`, folded over the
queue in order: on a fetch error the entry is kept in the rebuilt queue iff
`time.Since(entry.AddedAt) <= 10*time.Minute` (600 seconds); on success a
rendered outcome is emitted, with the game number looked up in the cache.
Returns the rebuilt queue and the emitted outcomes, in queue order. -/
def drainQueue (fetch : Int → Option MatchDetails) (now : Int) (gns : List (Int × Int)) :
    List FinishedQueueEntry → List FinishedQueueEntry × List MatchesFinishedDataItem
  | [] => ([], [])
  | entry :: rest =>
    let out := drainQueue fetch now gns rest
    match fetch entry.matchID with
    | none =>
      if now - entry.addedAt ≤ 600 then (entry :: out.1, out.2) else out
    | some details =>
      (out.1, renderFinished (getGameNumber gns entry.matchID) details :: out.2)

/-- `fetchFinishedMatchDetails`: drain the finished queue against the
details-fetch oracle, replace the queue with the rebuilt one, and return
the rendered outcomes. -/
def fetchFinishedMatchDetails (fetch : Int → Option MatchDetails) (now : Int)
    (s : BotState) : BotState × List MatchesFinishedDataItem :=
  let out := drainQueue fetch now s.gameNumbers s.finishedQueue
  ({ s with finishedQueue := out.1 }, out.2)

/-- One operation of the tracker, as driven by the poll loop of `bot.run`:
a live-snapshot ingestion, a finished-detection pass, or a queue drain.
The oracle results and `time.Now()` instants are carried in the operation. -/
inductive BotOp where
  | updateLive (res : Option (List LiveLeagueGame))
  | updateFinished (res : Option (List Int)) (now : Int)
  | drain (fetch : Int → Option MatchDetails) (now : Int)

/-- The state transition of one tracker operation. -/
def stepBot : BotOp → BotState → BotState
  | .updateLive res, s => (updateLiveGames res s).1
  | .updateFinished res now, s => updateFinishedGames res now s
  | .drain fetch now, s => (fetchFinishedMatchDetails fetch now s).1

/-- Running a sequence of tracker operations. -/
def runBot : List BotOp → BotState → BotState
  | [], s => s
  | op :: ops, s => runBot ops (stepBot op s)

/-- A state is reachable when some operation sequence produces it from the
freshly constructed bot's state. -/
def Reachable (s : BotState) : Prop :=
  ∃ ops : List BotOp, runBot ops initState = s

/-- `ingestTrace` runs a sequence of successful live-snapshot ingestions
and records, for each ingestion, the match ids reported newly drafting and
newly started. -/
def ingestTrace : List (List LiveLeagueGame) → BotState → List (List Int × List Int)
  | [], _ => []
  | snap :: rest, s =>
    let out := processLiveGames snap s
    (out.2.1.map (·.matchID), out.2.2.map (·.matchID)) :: ingestTrace rest out.1

/-- An HTTP exchange as seen by `getJSON` after the request was sent: the
response status code, and the JSON-decoded body (`none` models a body that
fails to decode into the expected response type). Each client query issues
exactly one such exchange; there is no retry inside the client. -/
structure HttpResponse (ρ : Type) where
  statusCode : Nat
  body : Option ρ

/-- `getJSON` of the dota API client: reject a non-200 HTTP status, then
decode the body, then apply the response's `checkResult`; any failure is
returned as an error, otherwise the decoded response is returned. -/
def getJSON {ρ : Type} (checkResult : ρ → Bool) (res : HttpResponse ρ) : Except String ρ :=
  if res.statusCode ≠ 200 then
    .error "Bad HTTP response status code"
  else
    match res.body with
    | none => .error "Error decoding result as JSON"
    | some v =>
      if ¬ checkResult v then .error "Bad steam result" else .ok v

/-- Whether an API-client call succeeded. -/
def exceptOk {ρ : Type} : Except String ρ → Bool
  | .ok _ => true
  | .error _ => false

/-- The `result` object of a GetLiveLeagueGames response. -/
structure LiveLeagueGamesResult where
  status : Int
  games : List LiveLeagueGame

/-- `LiveLeagueGamesResponse`. -/
structure LiveLeagueGamesResponse where
  result : LiveLeagueGamesResult

/-- `LiveLeagueGamesResponse.checkResult`: in-body status must be 200. -/
def LiveLeagueGamesResponse.checkResult (res : LiveLeagueGamesResponse) : Bool :=
  res.result.status == 200

/-- A hero of a GetHeroes response. -/
structure Hero where
  name : String
  id : Int
  localizedName : String

/-- The `result` object of a GetHeroes response. -/
structure HeroesResult where
  status : Int
  count : Int
  heroes : List Hero

/-- `HeroesResponse`. -/
structure HeroesResponse where
  result : HeroesResult

/-- `HeroesResponse.checkResult`: in-body status must be 200. -/
def HeroesResponse.checkResult (res : HeroesResponse) : Bool :=
  res.result.status == 200

/-- A match of a GetMatchHistory response (`MatchHistoryMatch`). -/
structure MatchHistoryMatch where
  matchID : Int

/-- The `result` object of a GetMatchHistory response. -/
structure MatchHistoryResult where
  status : Int
  matches2 : List MatchHistoryMatch

/-- `MatchHistoryResponse`. -/
structure MatchHistoryResponse where
  result : MatchHistoryResult

/-- `MatchHistoryResponse.checkResult`: in-body status must be 1. -/
def MatchHistoryResponse.checkResult (res : MatchHistoryResponse) : Bool :=
  res.result.status == 1

/-- The `result` object of a GetMatchDetails response: an embedded
`*MatchDetails` (possibly absent) and an `Error` field (possibly absent). -/
structure MatchDetailsResult where
  matchDetails : Option MatchDetails
  error : Option String

/-- `MatchDetailsResponse`. -/
structure MatchDetailsResponse where
  result : MatchDetailsResult

/-- `MatchDetailsResponse.checkResult`: the `Error` field must be absent and
the match details present. -/
def MatchDetailsResponse.checkResult (res : MatchDetailsResponse) : Bool :=
  res.result.error == none && res.result.matchDetails.isSome

/-- A live game for match 1 that classifies as started (one second of
elapsed duration). -/
def gameStartedOne : LiveLeagueGame :=
  { matchID := 1, scoreboard := { duration := 1 } }

/-- A live game for match 1 that classifies as drafting (zero duration,
no picks). -/
def gameDraftingOne : LiveLeagueGame :=
  { matchID := 1 }

/-- A started live game for match 1 that is game 3 of its series. -/
def gameThreeOne : LiveLeagueGame :=
  { matchID := 1, gameNumber := 3, scoreboard := { duration := 1 } }

/-- The tracker-state invariant maintained by every operation: every
finished match was seen started, every queued entry's match is marked
finished, and the queue holds at most one entry per match id. -/
def InvState (s : BotState) : Prop :=
  s.matchesFinished ⊆ s.matchesStarted ∧
  (∀ e ∈ s.finishedQueue, e.matchID ∈ s.matchesFinished) ∧
  (s.finishedQueue.map FinishedQueueEntry.matchID).Nodup

/-! ## Theorems -/

/-- `processLiveGames` only grows the drafting and started sets and leaves
the finished set and the queue untouched. -/
theorem processLiveGames_sets (games : List LiveLeagueGame) (s : BotState) :
    s.matchesDrafting ⊆ (processLiveGames games s).1.matchesDrafting ∧
    s.matchesStarted ⊆ (processLiveGames games s).1.matchesStarted ∧
    (processLiveGames games s).1.matchesFinished = s.matchesFinished ∧
    (processLiveGames games s).1.finishedQueue = s.finishedQueue := by
  induction games generalizing s with
  | nil => simp [processLiveGames]
  | cons game rest ih =>
    simp only [processLiveGames]
    split_ifs with h1 h2 h3
    · exact ih { s with
        gameNumbers := setGameNumber s.gameNumbers game.matchID game.gameNumber }
    · obtain ⟨ha, hb, hc, hd⟩ := ih { s with
        gameNumbers := setGameNumber s.gameNumbers game.matchID game.gameNumber
        matchesStarted := insert game.matchID s.matchesStarted }
      exact ⟨ha, (Finset.subset_insert _ _).trans hb, hc, hd⟩
    · exact ih { s with
        gameNumbers := setGameNumber s.gameNumbers game.matchID game.gameNumber }
    · obtain ⟨ha, hb, hc, hd⟩ := ih { s with
        gameNumbers := setGameNumber s.gameNumbers game.matchID game.gameNumber
        matchesDrafting := insert game.matchID s.matchesDrafting }
      exact ⟨(Finset.subset_insert _ _).trans ha, hb, hc, hd⟩

/-- `processHistory` leaves the drafting and started sets and the
game-number cache untouched and only grows the finished set. -/
theorem processHistory_sets (now : Int) (ms : List Int) (s : BotState) :
    (processHistory now ms s).matchesDrafting = s.matchesDrafting ∧
    (processHistory now ms s).matchesStarted = s.matchesStarted ∧
    s.matchesFinished ⊆ (processHistory now ms s).matchesFinished ∧
    (processHistory now ms s).gameNumbers = s.gameNumbers := by
  induction ms generalizing s with
  | nil => simp [processHistory]
  | cons m rest ih =>
    simp only [processHistory]
    split_ifs with h1
    · obtain ⟨ha, hb, hc, hd⟩ := ih { s with
        matchesFinished := insert m s.matchesFinished
        finishedQueue := s.finishedQueue ++ [⟨m, now⟩] }
      exact ⟨ha, hb, (Finset.subset_insert _ _).trans hc, hd⟩
    · exact ih s

/-- The queue rebuilt by `drainQueue` is a sublist of the original queue. -/
theorem drainQueue_sublist (fetch : Int → Option MatchDetails) (now : Int)
    (gns : List (Int × Int)) (q : List FinishedQueueEntry) :
    (drainQueue fetch now gns q).1.Sublist q := by
  induction q with
  | nil => simp [drainQueue]
  | cons entry rest ih =>
    simp only [drainQueue]
    cases fetch entry.matchID with
    | none =>
      by_cases h : now - entry.addedAt ≤ 600
      · simpa [h] using ih.cons₂ entry
      · simpa [h] using ih.cons entry
    | some details => exact ih.cons entry

/-- A single tracker operation only grows each of the three phase sets. -/
theorem stepBot_sets (op : BotOp) (s : BotState) :
    s.matchesDrafting ⊆ (stepBot op s).matchesDrafting ∧
    s.matchesStarted ⊆ (stepBot op s).matchesStarted ∧
    s.matchesFinished ⊆ (stepBot op s).matchesFinished := by
  cases op with
  | updateLive res =>
    cases res with
    | none => simp [stepBot, updateLiveGames]
    | some games =>
      obtain ⟨ha, hb, hc, _⟩ := processLiveGames_sets games s
      exact ⟨ha, hb, by rw [show stepBot (BotOp.updateLive (some games)) s =
        (processLiveGames games s).1 from rfl, hc]⟩
  | updateFinished res now =>
    have hstep : stepBot (BotOp.updateFinished res now) s = updateFinishedGames res now s := rfl
    rw [hstep]
    unfold updateFinishedGames
    split_ifs with h1
    · exact ⟨Finset.Subset.refl _, Finset.Subset.refl _, Finset.Subset.refl _⟩
    · cases res with
      | none => exact ⟨Finset.Subset.refl _, Finset.Subset.refl _, Finset.Subset.refl _⟩
      | some ms =>
        obtain ⟨ha, hb, hc, _⟩ := processHistory_sets now ms s
        exact ⟨by rw [ha], by rw [hb], hc⟩
  | drain fetch now =>
    exact ⟨Finset.Subset.refl _, Finset.Subset.refl _, Finset.Subset.refl _⟩

/-- Running any operation sequence only grows each of the three phase
sets. -/
theorem runBot_sets (ops : List BotOp) (s : BotState) :
    s.matchesDrafting ⊆ (runBot ops s).matchesDrafting ∧
    s.matchesStarted ⊆ (runBot ops s).matchesStarted ∧
    s.matchesFinished ⊆ (runBot ops s).matchesFinished := by
  induction ops generalizing s with
  | nil => exact ⟨Finset.Subset.refl _, Finset.Subset.refl _, Finset.Subset.refl _⟩
  | cons op rest ih =>
    obtain ⟨ha, hb, hc⟩ := stepBot_sets op s
    obtain ⟨ha', hb', hc'⟩ := ih (stepBot op s)
    exact ⟨ha.trans ha', hb.trans hb', hc.trans hc'⟩

/-- C6: the three phase-membership maps only grow: for every state and
every sequence of tracker operations (snapshot ingestions, finished
detections, queue drains), a match id present in `matchesDrafting`,
`matchesStarted` or `matchesFinished` is still present after the
operations run; no operation ever removes an id from these maps. -/
theorem phase_sets_monotone :
    ∀ (s : BotState) (ops : List BotOp),
      s.matchesDrafting ⊆ (runBot ops s).matchesDrafting ∧
      s.matchesStarted ⊆ (runBot ops s).matchesStarted ∧
      s.matchesFinished ⊆ (runBot ops s).matchesFinished :=
  fun s ops => runBot_sets ops s

/-- `processHistory` preserves the tracker-state invariant. -/
theorem processHistory_inv (now : Int) (ms : List Int) :
    ∀ s : BotState, InvState s → InvState (processHistory now ms s) := by
  induction ms with
  | nil => exact fun s h => h
  | cons m rest ih =>
    intro s h
    obtain ⟨hsub, hqf, hnd⟩ := h
    simp only [processHistory]
    split_ifs with h1
    · refine ih _ ⟨Finset.insert_subset h1.1 hsub, ?_, ?_⟩
      · intro e he
        rcases List.mem_append.mp he with he | he
        · exact Finset.mem_insert_of_mem (hqf e he)
        · rw [List.mem_singleton.mp he]
          exact Finset.mem_insert_self _ _
      · rw [List.map_append, List.nodup_append]
        refine ⟨hnd, List.nodup_singleton _, fun a ha hb => ?_⟩
        rw [List.mem_map] at ha
        obtain ⟨e, he, rfl⟩ := ha
        simp only [List.map_cons, List.map_nil, List.mem_singleton] at hb
        exact h1.2 (hb ▸ hqf e he)
    · exact ih s ⟨hsub, hqf, hnd⟩

/-- Every tracker operation preserves the tracker-state invariant. -/
theorem stepBot_inv (op : BotOp) (s : BotState) (h : InvState s) : InvState (stepBot op s) := by
  obtain ⟨hsub, hqf, hnd⟩ := h
  cases op with
  | updateLive res =>
    cases res with
    | none => exact ⟨hsub, hqf, hnd⟩
    | some games =>
      obtain ⟨_, hb, hc, hd⟩ := processLiveGames_sets games s
      have hstep : stepBot (BotOp.updateLive (some games)) s = (processLiveGames games s).1 := rfl
      rw [hstep, InvState, hc, hd]
      exact ⟨hsub.trans hb, hqf, hnd⟩
  | updateFinished res now =>
    have hstep : stepBot (BotOp.updateFinished res now) s = updateFinishedGames res now s := rfl
    rw [hstep]
    unfold updateFinishedGames
    split_ifs with h1
    · exact ⟨hsub, hqf, hnd⟩
    · cases res with
      | none => exact ⟨hsub, hqf, hnd⟩
      | some ms => exact processHistory_inv now ms s ⟨hsub, hqf, hnd⟩
  | drain fetch now =>
    have hsl := drainQueue_sublist fetch now s.gameNumbers s.finishedQueue
    exact ⟨hsub, fun e he => hqf e (hsl.subset he), hnd.sublist (hsl.map _)⟩

/-- Running any operation sequence preserves the tracker-state invariant. -/
theorem runBot_inv (ops : List BotOp) :
    ∀ s : BotState, InvState s → InvState (runBot ops s) := by
  induction ops with
  | nil => exact fun s h => h
  | cons op rest ih => exact fun s h => ih _ (stepBot_inv op s h)

/-- The freshly constructed bot satisfies the tracker-state invariant. -/
theorem initState_inv : InvState initState := by
  refine ⟨?_, ?_, ?_⟩ <;> simp [InvState, initState]

/-- Every reachable tracker state satisfies the invariant. -/
theorem reachable_inv (s : BotState) (h : Reachable s) : InvState s := by
  obtain ⟨ops, hops⟩ := h
  exact hops ▸ runBot_inv ops initState initState_inv

/-- C10: in every reachable state, `matchesFinished` is a subset of
`matchesStarted` (a match is marked finished only after having been seen
started), and whenever the two maps have equal size they are the same set,
so the shortcut that skips the match-history fetch when
`len(matchesStarted) == len(matchesFinished)` correctly detects that no
started match is still unfinished. -/
theorem finished_subset_started_spec (s : BotState) (h : Reachable s) :
    s.matchesFinished ⊆ s.matchesStarted ∧
    (s.matchesStarted.card = s.matchesFinished.card →
      s.matchesStarted = s.matchesFinished) := by
  have hinv := reachable_inv s h
  exact ⟨hinv.1, fun hcard =>
    (Finset.eq_of_subset_of_card_le hinv.1 (le_of_eq hcard)).symm⟩

/-- C10 witness: the reachable state in which match 1 was seen started and
then detected finished has equal-size phase maps, and they indeed coincide. -/
theorem finished_subset_started_spec_witness :
    Reachable (runBot [BotOp.updateLive (some [gameStartedOne]),
      BotOp.updateFinished (some [1]) 0] initState) ∧
    ((runBot [BotOp.updateLive (some [gameStartedOne]),
        BotOp.updateFinished (some [1]) 0] initState).matchesFinished ⊆
      (runBot [BotOp.updateLive (some [gameStartedOne]),
        BotOp.updateFinished (some [1]) 0] initState).matchesStarted ∧
    ((runBot [BotOp.updateLive (some [gameStartedOne]),
        BotOp.updateFinished (some [1]) 0] initState).matchesStarted.card =
      (runBot [BotOp.updateLive (some [gameStartedOne]),
        BotOp.updateFinished (some [1]) 0] initState).matchesFinished.card →
      (runBot [BotOp.updateLive (some [gameStartedOne]),
        BotOp.updateFinished (some [1]) 0] initState).matchesStarted =
      (runBot [BotOp.updateLive (some [gameStartedOne]),
        BotOp.updateFinished (some [1]) 0] initState).matchesFinished)) :=
  ⟨⟨_, rfl⟩, finished_subset_started_spec _ ⟨_, rfl⟩⟩

/-- Matches already marked finished are never re-processed by
`processHistory`: they stay finished and no queue entry is added for
them. -/
theorem processHistory_filter_of_finished (now : Int) (ms : List Int) :
    ∀ (s : BotState) (m : ℤ), m ∈ s.matchesFinished →
      m ∈ (processHistory now ms s).matchesFinished ∧
      (processHistory now ms s).finishedQueue.filter (fun e => e.matchID == m) =
        s.finishedQueue.filter (fun e => e.matchID == m) := by
  induction ms with
  | nil => exact fun s m hm => ⟨hm, rfl⟩
  | cons x rest ih =>
    intro s m hm
    simp only [processHistory]
    split_ifs with h1
    · have hxm : x ≠ m := fun hxm => h1.2 (hxm ▸ hm)
      have hfilter :
          (s.finishedQueue ++ [(⟨x, now⟩ : FinishedQueueEntry)]).filter
              (fun e => e.matchID == m) =
            s.finishedQueue.filter (fun e => e.matchID == m) := by
        rw [List.filter_append]
        simp [hxm]
      obtain ⟨ha, hb⟩ := ih { s with
        matchesFinished := insert x s.matchesFinished
        finishedQueue := s.finishedQueue ++ [⟨x, now⟩] } m (Finset.mem_insert_of_mem hm)
      exact ⟨ha, hb.trans hfilter⟩
    · exact ih s m hm

/-- A started, not-yet-finished match that appears in the processed history
list is marked finished and exactly one queue entry, stamped `now`, is
appended for it. -/
theorem processHistory_filter_of_new (now : Int) (ms : List Int) :
    ∀ (s : BotState) (m : ℤ), m ∈ ms → m ∈ s.matchesStarted → m ∉ s.matchesFinished →
      m ∈ (processHistory now ms s).matchesFinished ∧
      (processHistory now ms s).finishedQueue.filter (fun e => e.matchID == m) =
        s.finishedQueue.filter (fun e => e.matchID == m) ++ [⟨m, now⟩] := by
  induction ms with
  | nil => intro s m hm; simp at hm
  | cons x rest ih =>
    intro s m hm hms hmf
    simp only [processHistory]
    by_cases hxm : x = m
    · subst hxm
      rw [if_pos ⟨hms, hmf⟩]
      have hfilter :
          (s.finishedQueue ++ [(⟨x, now⟩ : FinishedQueueEntry)]).filter
              (fun e => e.matchID == x) =
            s.finishedQueue.filter (fun e => e.matchID == x) ++ [⟨x, now⟩] := by
        rw [List.filter_append]
        simp
      obtain ⟨ha, hb⟩ := processHistory_filter_of_finished now rest { s with
        matchesFinished := insert x s.matchesFinished
        finishedQueue := s.finishedQueue ++ [⟨x, now⟩] } x (Finset.mem_insert_self _ _)
      exact ⟨ha, hb.trans hfilter⟩
    · have hmrest : m ∈ rest := by
        rcases List.mem_cons.mp hm with h | h
        · exact absurd h.symm hxm
        · exact h
      split_ifs with h1
      · have hfilter :
            (s.finishedQueue ++ [(⟨x, now⟩ : FinishedQueueEntry)]).filter
                (fun e => e.matchID == m) =
              s.finishedQueue.filter (fun e => e.matchID == m) := by
          rw [List.filter_append]
          simp [hxm]
        have hmf' : m ∉ insert x s.matchesFinished := by
          rw [Finset.mem_insert]
          push_neg
          exact ⟨fun h => hxm h.symm, hmf⟩
        obtain ⟨ha, hb⟩ := ih { s with
          matchesFinished := insert x s.matchesFinished
          finishedQueue := s.finishedQueue ++ [⟨x, now⟩] } m hmrest hms hmf'
        exact ⟨ha, hb.trans (by rw [hfilter])⟩
      · exact ih s m hmrest hms hmf

/-- C1 (amended): for every match id in Started-seen and not yet in
Finished-seen that is present in the fetched match-history result,
`updateFinishedGames` marks it Finished-seen and appends exactly one
`finishedQueueEntry` for it with `AddedAt` set to the current time; a match
already in Finished-seen is never re-processed, so a second detection pass
does not re-enqueue it. (The trigger is presence in the match-history
result, not absence from the current live snapshot.) -/
theorem updateFinishedGames_spec (s : BotState) (hist : List Int) (now : Int) (m : ℤ)
    (hsub : s.matchesFinished ⊆ s.matchesStarted) (hm : m ∈ s.matchesStarted) :
    (m ∉ s.matchesFinished → m ∈ hist →
      m ∈ (updateFinishedGames (some hist) now s).matchesFinished ∧
      (updateFinishedGames (some hist) now s).finishedQueue.filter (fun e => e.matchID == m) =
        s.finishedQueue.filter (fun e => e.matchID == m) ++ [⟨m, now⟩]) ∧
    (m ∈ s.matchesFinished →
      m ∈ (updateFinishedGames (some hist) now s).matchesFinished ∧
      (updateFinishedGames (some hist) now s).finishedQueue.filter (fun e => e.matchID == m) =
        s.finishedQueue.filter (fun e => e.matchID == m)) := by
  constructor
  · intro hnf hin
    have hne : ¬ s.matchesStarted.card = s.matchesFinished.card := by
      intro hcard
      have heq := Finset.eq_of_subset_of_card_le hsub (le_of_eq hcard)
      exact hnf (heq ▸ hm)
    unfold updateFinishedGames
    rw [if_neg hne]
    exact processHistory_filter_of_new now hist s m hin hm hnf
  · intro hf
    unfold updateFinishedGames
    split_ifs with h1
    · exact ⟨hf, rfl⟩
    · exact processHistory_filter_of_finished now hist s m hf

/-- C1 counterexample: in the reachable state where match 1 was seen
started, the match is absent from the current (empty) live snapshot and not
yet Finished-seen, yet the finished-detection step (`updateFinishedGames`,
run with a successfully fetched match-history result that does not list the
match) neither marks it Finished-seen nor enqueues any entry: detection is
triggered by presence in the match-history result, not by absence from the
live snapshot. -/
theorem updateFinishedGames_claim_cex :
    (1 : ℤ) ∈ (runBot [BotOp.updateLive (some [gameStartedOne])] initState).matchesStarted ∧
    (1 : ℤ) ∉ (runBot [BotOp.updateLive (some [gameStartedOne])] initState).matchesFinished ∧
    (∀ g ∈ ([] : List LiveLeagueGame), g.matchID ≠ 1) ∧
    (updateLiveGames (some [])
        (runBot [BotOp.updateLive (some [gameStartedOne])] initState)).1 =
      runBot [BotOp.updateLive (some [gameStartedOne])] initState ∧
    (1 : ℤ) ∉ (updateFinishedGames (some []) 5
        (runBot [BotOp.updateLive (some [gameStartedOne])] initState)).matchesFinished ∧
    (updateFinishedGames (some []) 5
        (runBot [BotOp.updateLive (some [gameStartedOne])] initState)).finishedQueue = [] := by
  decide

/-- C1 witness: in the reachable state where match 1 was seen started, a
history result listing match 1 marks it finished and appends exactly one
queue entry stamped with the current time. -/
theorem updateFinishedGames_spec_witness :
    (1 : ℤ) ∈ (runBot [BotOp.updateLive (some [gameStartedOne])] initState).matchesStarted ∧
    ((1 : ℤ) ∈ (updateFinishedGames (some [1]) 7
        (runBot [BotOp.updateLive (some [gameStartedOne])] initState)).matchesFinished ∧
      (updateFinishedGames (some [1]) 7
          (runBot [BotOp.updateLive (some [gameStartedOne])] initState)).finishedQueue.filter
            (fun e => e.matchID == 1) =
        (runBot [BotOp.updateLive (some [gameStartedOne])]
            initState).finishedQueue.filter (fun e => e.matchID == 1) ++ [⟨1, 7⟩]) :=
  ⟨by decide,
    (updateFinishedGames_spec _ [1] 7 1 (by decide) (by decide)).1 (by decide) (by decide)⟩

/-- A queued entry whose detail fetch fails survives the drain iff at most
600 seconds (10 minutes) have elapsed since it was enqueued. -/
theorem drainQueue_mem_iff (fetch : Int → Option MatchDetails) (now : Int)
    (gns : List (Int × Int)) :
    ∀ (q : List FinishedQueueEntry) (entry : FinishedQueueEntry), entry ∈ q →
      fetch entry.matchID = none →
      (entry ∈ (drainQueue fetch now gns q).1 ↔ now - entry.addedAt ≤ 600) := by
  intro q
  induction q with
  | nil => intro entry he; simp at he
  | cons x rest ih =>
    intro entry he hf
    have hsub := drainQueue_sublist fetch now gns rest
    simp only [drainQueue]
    rcases List.mem_cons.mp he with rfl | hmem
    · rw [hf]
      by_cases hc : now - entry.addedAt ≤ 600
      · simp [hc]
      · simp only [hc, if_false, iff_false]
        intro habs
        by_cases hrest : entry ∈ rest
        · exact hc ((ih entry hrest hf).mp habs)
        · exact hrest (hsub.subset habs)
    · cases hfx : fetch x.matchID with
      | none =>
        by_cases hc : now - x.addedAt ≤ 600
        · simp only [hfx, hc, if_true]
          rw [List.mem_cons]
          constructor
          · rintro (rfl | h)
            · exact hc
            · exact (ih entry hmem hf).mp h
          · intro h
            exact Or.inr ((ih entry hmem hf).mpr h)
        · simp only [hfx, hc, if_false]
          exact ih entry hmem hf
      | some d =>
        simp only [hfx]
        exact ih entry hmem hf

/-- The outcomes emitted by a drain are exactly the renderings of the
queued entries whose detail fetch succeeds; a failing entry contributes no
outcome. -/
theorem drainQueue_outs_eq (fetch : Int → Option MatchDetails) (now : Int)
    (gns : List (Int × Int)) :
    ∀ q : List FinishedQueueEntry,
      (drainQueue fetch now gns q).2 = q.filterMap
        (fun e => (fetch e.matchID).map
          (renderFinished (getGameNumber gns e.matchID))) := by
  intro q
  induction q with
  | nil => rfl
  | cons x rest ih =>
    simp only [drainQueue, List.filterMap_cons]
    cases hfx : fetch x.matchID with
    | none =>
      simp only [hfx, Option.map_none]
      split <;> simpa using ih
    | some d => simp [hfx, ih]

/-- `processHistory` never enqueues an entry for a match that is already
marked finished, and keeps it marked finished. -/
theorem processHistory_queue_ids (now : Int) (ms : List Int) :
    ∀ (s : BotState) (m : ℤ), m ∈ s.matchesFinished →
      (∀ e ∈ s.finishedQueue, e.matchID ≠ m) →
      m ∈ (processHistory now ms s).matchesFinished ∧
      ∀ e ∈ (processHistory now ms s).finishedQueue, e.matchID ≠ m := by
  induction ms with
  | nil => exact fun s m hm hq => ⟨hm, hq⟩
  | cons x rest ih =>
    intro s m hm hq
    simp only [processHistory]
    split_ifs with h1
    · refine ih _ m (Finset.mem_insert_of_mem hm) ?_
      intro e he
      rcases List.mem_append.mp he with he | he
      · exact hq e he
      · rw [List.mem_singleton.mp he]
        intro habs
        have hxm : x = m := habs
        exact h1.2 (hxm ▸ hm)
    · exact ih s m hm hq

/-- No tracker operation enqueues an entry for a match that is already
marked finished and absent from the queue. -/
theorem stepBot_queue_ids (op : BotOp) (s : BotState) (m : ℤ)
    (hm : m ∈ s.matchesFinished) (hq : ∀ e ∈ s.finishedQueue, e.matchID ≠ m) :
    m ∈ (stepBot op s).matchesFinished ∧
    ∀ e ∈ (stepBot op s).finishedQueue, e.matchID ≠ m := by
  cases op with
  | updateLive res =>
    cases res with
    | none => exact ⟨hm, hq⟩
    | some games =>
      obtain ⟨_, _, hc, hd⟩ := processLiveGames_sets games s
      have hstep : stepBot (BotOp.updateLive (some games)) s = (processLiveGames games s).1 := rfl
      rw [hstep, hc, hd]
      exact ⟨hm, hq⟩
  | updateFinished res now =>
    have hstep : stepBot (BotOp.updateFinished res now) s = updateFinishedGames res now s := rfl
    rw [hstep]
    unfold updateFinishedGames
    split_ifs with h1
    · exact ⟨hm, hq⟩
    · cases res with
      | none => exact ⟨hm, hq⟩
      | some ms => exact processHistory_queue_ids now ms s m hm hq
  | drain fetch now =>
    have hsl := drainQueue_sublist fetch now s.gameNumbers s.finishedQueue
    exact ⟨hm, fun e he => hq e (hsl.subset he)⟩

/-- A match that is marked finished and has no queue entry never gains a
queue entry again, over any sequence of tracker operations. -/
theorem runBot_queue_ids (ops : List BotOp) :
    ∀ (s : BotState) (m : ℤ), m ∈ s.matchesFinished →
      (∀ e ∈ s.finishedQueue, e.matchID ≠ m) →
      ∀ e ∈ (runBot ops s).finishedQueue, e.matchID ≠ m := by
  induction ops with
  | nil => exact fun s m _ hq => hq
  | cons op rest ih =>
    intro s m hm hq
    obtain ⟨hm', hq'⟩ := stepBot_queue_ids op s m hm hq
    exact ih _ m hm' hq'

/-- C2: when the detail fetch for a queued finished match fails, the entry
stays in the queue iff at most 10 minutes (600 seconds) have elapsed since
its `AddedAt`; the drain emits outcomes only for entries whose fetch
succeeds, so no outcome is emitted for the failing entry; and once more
than 10 minutes have elapsed the entry is removed permanently — no later
sequence of tracker operations ever puts an entry for that match id back in
the queue, so it is never retried again. -/
theorem drain_retry_spec (s : BotState) (fetch : Int → Option MatchDetails) (now : Int)
    (entry : FinishedQueueEntry) (hreach : Reachable s)
    (hq : entry ∈ s.finishedQueue) (hf : fetch entry.matchID = none) :
    (entry ∈ (fetchFinishedMatchDetails fetch now s).1.finishedQueue ↔
      now - entry.addedAt ≤ 600) ∧
    (fetchFinishedMatchDetails fetch now s).2 =
      s.finishedQueue.filterMap
        (fun e => (fetch e.matchID).map
          (renderFinished (getGameNumber s.gameNumbers e.matchID))) ∧
    (600 < now - entry.addedAt →
      ∀ (ops : List BotOp) (e : FinishedQueueEntry),
        e ∈ (runBot ops (fetchFinishedMatchDetails fetch now s).1).finishedQueue →
        e.matchID ≠ entry.matchID) := by
  obtain ⟨hsub, hqfin, hnodup⟩ := reachable_inv s hreach
  refine ⟨drainQueue_mem_iff fetch now s.gameNumbers s.finishedQueue entry hq hf, ?_, ?_⟩
  · exact drainQueue_outs_eq fetch now s.gameNumbers s.finishedQueue
  · intro hgt ops e he
    have hsl := drainQueue_sublist fetch now s.gameNumbers s.finishedQueue
    have hmfin : entry.matchID ∈ s.matchesFinished := hqfin entry hq
    have hnone : ∀ e' ∈ (fetchFinishedMatchDetails fetch now s).1.finishedQueue,
        e'.matchID ≠ entry.matchID := by
      intro e' he' heq
      have he'q : e' ∈ s.finishedQueue := hsl.subset he'
      have he'e : e' = entry :=
        List.inj_on_of_nodup_map hnodup he'q hq heq
      subst he'e
      exact absurd ((drainQueue_mem_iff fetch now s.gameNumbers
        s.finishedQueue e' hq hf).mp he') (by omega)
    have hmfin' : entry.matchID ∈ (fetchFinishedMatchDetails fetch now s).1.matchesFinished :=
      hmfin
    exact runBot_queue_ids ops _ entry.matchID hmfin' hnone e he

/-- C2 witness: in the reachable state where match 1 was detected finished
at time 0, a failing detail fetch at time 601 (more than 600 seconds after
enqueue) drops the entry — subsequent membership is equivalent to the
false bound — and no later operation sequence re-enqueues match 1 (here
instantiated on the empty continuation). -/
theorem drain_retry_spec_witness :
    ((⟨1, 0⟩ : FinishedQueueEntry) ∈ (runBot [BotOp.updateLive (some [gameStartedOne]),
      BotOp.updateFinished (some [1]) 0] initState).finishedQueue) ∧
    (((⟨1, 0⟩ : FinishedQueueEntry) ∈ (fetchFinishedMatchDetails (fun _ => none) 601
        (runBot [BotOp.updateLive (some [gameStartedOne]),
          BotOp.updateFinished (some [1]) 0] initState)).1.finishedQueue ↔
      (601 : ℤ) - 0 ≤ 600) ∧
    (fetchFinishedMatchDetails (fun _ => none) 601
        (runBot [BotOp.updateLive (some [gameStartedOne]),
          BotOp.updateFinished (some [1]) 0] initState)).2 =
      (runBot [BotOp.updateLive (some [gameStartedOne]),
        BotOp.updateFinished (some [1]) 0] initState).finishedQueue.filterMap
          (fun e => ((fun _ => (none : Option MatchDetails)) e.matchID).map
            (renderFinished (getGameNumber (runBot [BotOp.updateLive (some [gameStartedOne]),
              BotOp.updateFinished (some [1]) 0] initState).gameNumbers e.matchID))) ∧
    ((600 : ℤ) < 601 - 0 →
      ∀ (ops : List BotOp) (e : FinishedQueueEntry),
        e ∈ (runBot ops (fetchFinishedMatchDetails (fun _ => none) 601
          (runBot [BotOp.updateLive (some [gameStartedOne]),
            BotOp.updateFinished (some [1]) 0] initState)).1).finishedQueue →
        e.matchID ≠ (⟨1, 0⟩ : FinishedQueueEntry).matchID)) :=
  ⟨by decide,
    drain_retry_spec _ (fun _ => none) 601 ⟨1, 0⟩ ⟨_, rfl⟩ (by decide) rfl⟩

/-- C5: every successfully fetched match-details result for a queued entry
yields a rendered outcome whose winner is the radiant name/score and loser
the dire name/score when `radiant_win` holds, and the symmetric swap when
it does not, with the game number taken from the value cached for that
match id. -/
theorem drain_render_spec (s : BotState) (fetch : Int → Option MatchDetails) (now : Int)
    (entry : FinishedQueueEntry) (details : MatchDetails)
    (hq : entry ∈ s.finishedQueue) (hf : fetch entry.matchID = some details) :
    ∃ item ∈ (fetchFinishedMatchDetails fetch now s).2,
      item.gameNumber = getGameNumber s.gameNumbers entry.matchID ∧
      item.winnerName = (if details.radiantWin then details.radiantName else details.direName) ∧
      item.loserName = (if details.radiantWin then details.direName else details.radiantName) ∧
      item.winnerScore =
        (if details.radiantWin then details.radiantScore else details.direScore) ∧
      item.loserScore =
        (if details.radiantWin then details.direScore else details.radiantScore) := by
  refine ⟨renderFinished (getGameNumber s.gameNumbers entry.matchID) details, ?_,
    ?_, ?_, ?_, ?_, ?_⟩
  · have houts := drainQueue_outs_eq fetch now s.gameNumbers s.finishedQueue
    have hstep : (fetchFinishedMatchDetails fetch now s).2 =
        (drainQueue fetch now s.gameNumbers s.finishedQueue).2 := rfl
    rw [hstep, houts]
    exact List.mem_filterMap.mpr ⟨entry, hq, by rw [hf]; rfl⟩
  all_goals cases hb : details.radiantWin <;> simp [renderFinished, hb]

/-- C5 witness: with cached game number 3 and details
`{radiant_win := true, "A", "B", 2, 1}` the rendered outcome is winner "A",
loser "B", scores 2–1, game 3; with `radiant_win := false` and the same
fields it is winner "B", loser "A", scores 1–2, game 3. -/
theorem drain_render_spec_witness :
    ((⟨1, 0⟩ : FinishedQueueEntry) ∈ (runBot [BotOp.updateLive (some [gameThreeOne]),
      BotOp.updateFinished (some [1]) 0] initState).finishedQueue) ∧
    (∃ item ∈ (fetchFinishedMatchDetails
        (fun _ => some ⟨true, "A", "B", 2, 1⟩) 0
        (runBot [BotOp.updateLive (some [gameThreeOne]),
          BotOp.updateFinished (some [1]) 0] initState)).2,
      item.gameNumber = 3 ∧ item.winnerName = "A" ∧ item.loserName = "B" ∧
        item.winnerScore = 2 ∧ item.loserScore = 1) ∧
    (∃ item ∈ (fetchFinishedMatchDetails
        (fun _ => some ⟨false, "A", "B", 2, 1⟩) 0
        (runBot [BotOp.updateLive (some [gameThreeOne]),
          BotOp.updateFinished (some [1]) 0] initState)).2,
      item.gameNumber = 3 ∧ item.winnerName = "B" ∧ item.loserName = "A" ∧
        item.winnerScore = 1 ∧ item.loserScore = 2) :=
  ⟨by decide,
    drain_render_spec _ (fun _ => some ⟨true, "A", "B", 2, 1⟩) 0 ⟨1, 0⟩
      ⟨true, "A", "B", 2, 1⟩ (by decide) rfl,
    drain_render_spec _ (fun _ => some ⟨false, "A", "B", 2, 1⟩) 0 ⟨1, 0⟩
      ⟨false, "A", "B", 2, 1⟩ (by decide) rfl⟩

/-- Branch equation of `processLiveGames`: a started game whose match is
already in `matchesStarted` only records its game number. -/
theorem processLiveGames_cons_started_mem (game : LiveLeagueGame)
    (rest : List LiveLeagueGame) (s : BotState) (h1 : isGameStarted game = true)
    (h2 : game.matchID ∈ s.matchesStarted) :
    processLiveGames (game :: rest) s = processLiveGames rest
      { s with gameNumbers := setGameNumber s.gameNumbers game.matchID game.gameNumber } := by
  simp [processLiveGames, h1, h2]

/-- Branch equation of `processLiveGames`: a started game not yet in
`matchesStarted` is added to it and reported newly started. -/
theorem processLiveGames_cons_started_new (game : LiveLeagueGame)
    (rest : List LiveLeagueGame) (s : BotState) (h1 : isGameStarted game = true)
    (h2 : game.matchID ∉ s.matchesStarted) :
    processLiveGames (game :: rest) s =
      ((processLiveGames rest { s with
          gameNumbers := setGameNumber s.gameNumbers game.matchID game.gameNumber
          matchesStarted := insert game.matchID s.matchesStarted }).1,
       (processLiveGames rest { s with
          gameNumbers := setGameNumber s.gameNumbers game.matchID game.gameNumber
          matchesStarted := insert game.matchID s.matchesStarted }).2.1,
       game :: (processLiveGames rest { s with
          gameNumbers := setGameNumber s.gameNumbers game.matchID game.gameNumber
          matchesStarted := insert game.matchID s.matchesStarted }).2.2) := by
  simp [processLiveGames, h1, h2]

/-- Branch equation of `processLiveGames`: a drafting game whose match is
already in `matchesDrafting` only records its game number. -/
theorem processLiveGames_cons_drafting_mem (game : LiveLeagueGame)
    (rest : List LiveLeagueGame) (s : BotState) (h1 : isGameStarted game = false)
    (h2 : game.matchID ∈ s.matchesDrafting) :
    processLiveGames (game :: rest) s = processLiveGames rest
      { s with gameNumbers := setGameNumber s.gameNumbers game.matchID game.gameNumber } := by
  simp [processLiveGames, h1, h2]

/-- Branch equation of `processLiveGames`: a drafting game not yet in
`matchesDrafting` is added to it and reported newly drafting. -/
theorem processLiveGames_cons_drafting_new (game : LiveLeagueGame)
    (rest : List LiveLeagueGame) (s : BotState) (h1 : isGameStarted game = false)
    (h2 : game.matchID ∉ s.matchesDrafting) :
    processLiveGames (game :: rest) s =
      ((processLiveGames rest { s with
          gameNumbers := setGameNumber s.gameNumbers game.matchID game.gameNumber
          matchesDrafting := insert game.matchID s.matchesDrafting }).1,
       game :: (processLiveGames rest { s with
          gameNumbers := setGameNumber s.gameNumbers game.matchID game.gameNumber
          matchesDrafting := insert game.matchID s.matchesDrafting }).2.1,
       (processLiveGames rest { s with
          gameNumbers := setGameNumber s.gameNumbers game.matchID game.gameNumber
          matchesDrafting := insert game.matchID s.matchesDrafting }).2.2) := by
  simp [processLiveGames, h1, h2]

/-- One snapshot ingestion reports a match id as newly drafting at most
once, never when it is already in `matchesDrafting`, and a report implies
membership in the resulting `matchesDrafting`. -/
theorem processLiveGames_drafting_count (games : List LiveLeagueGame) :
    ∀ (s : BotState) (m : ℤ),
      (m ∈ s.matchesDrafting →
        ((processLiveGames games s).2.1.map (·.matchID)).count m = 0) ∧
      ((processLiveGames games s).2.1.map (·.matchID)).count m ≤ 1 ∧
      (1 ≤ ((processLiveGames games s).2.1.map (·.matchID)).count m →
        m ∈ (processLiveGames games s).1.matchesDrafting) := by
  induction games with
  | nil =>
    intro s m
    refine ⟨fun _ => rfl, by simp [processLiveGames], fun h => ?_⟩
    simp [processLiveGames] at h
  | cons game rest ih =>
    intro s m
    by_cases h1 : isGameStarted game = true
    · by_cases h2 : game.matchID ∈ s.matchesStarted
      · rw [processLiveGames_cons_started_mem game rest s h1 h2]
        exact ih { s with
          gameNumbers := setGameNumber s.gameNumbers game.matchID game.gameNumber } m
      · rw [processLiveGames_cons_started_new game rest s h1 h2]
        exact ih { s with
          gameNumbers := setGameNumber s.gameNumbers game.matchID game.gameNumber
          matchesStarted := insert game.matchID s.matchesStarted } m
    · rw [Bool.not_eq_true] at h1
      by_cases h2 : game.matchID ∈ s.matchesDrafting
      · rw [processLiveGames_cons_drafting_mem game rest s h1 h2]
        exact ih { s with
          gameNumbers := setGameNumber s.gameNumbers game.matchID game.gameNumber } m
      · rw [processLiveGames_cons_drafting_new game rest s h1 h2]
        obtain ⟨iha, ihb, ihc⟩ := ih { s with
          gameNumbers := setGameNumber s.gameNumbers game.matchID game.gameNumber
          matchesDrafting := insert game.matchID s.matchesDrafting } m
        have hmono := (processLiveGames_sets rest { s with
          gameNumbers := setGameNumber s.gameNumbers game.matchID game.gameNumber
          matchesDrafting := insert game.matchID s.matchesDrafting }).1
        by_cases hgm : game.matchID = m
        · have hrest0 : ((processLiveGames rest { s with
              gameNumbers := setGameNumber s.gameNumbers game.matchID game.gameNumber
              matchesDrafting := insert game.matchID s.matchesDrafting }).2.1.map
                (·.matchID)).count m = 0 :=
            iha (hgm ▸ Finset.mem_insert_self _ _)
          have hcnt : ((game :: (processLiveGames rest { s with
              gameNumbers := setGameNumber s.gameNumbers game.matchID game.gameNumber
              matchesDrafting := insert game.matchID s.matchesDrafting }).2.1).map
                (·.matchID)).count m = 1 := by
            simp only [List.map_cons, List.count_cons]
            rw [hrest0, if_pos (by simpa using hgm)]
          refine ⟨fun hm => absurd (hgm ▸ hm) h2, by rw [hcnt], fun _ => ?_⟩
          exact hmono (hgm ▸ Finset.mem_insert_self _ _)
        · have hcnt : ((game :: (processLiveGames rest { s with
              gameNumbers := setGameNumber s.gameNumbers game.matchID game.gameNumber
              matchesDrafting := insert game.matchID s.matchesDrafting }).2.1).map
                (·.matchID)).count m = ((processLiveGames rest { s with
              gameNumbers := setGameNumber s.gameNumbers game.matchID game.gameNumber
              matchesDrafting := insert game.matchID s.matchesDrafting }).2.1.map
                (·.matchID)).count m := by
            simp only [List.map_cons, List.count_cons]
            rw [if_neg (by simpa using hgm)]
            omega
          rw [hcnt]
          exact ⟨fun hm => iha (Finset.mem_insert_of_mem hm), ihb, ihc⟩

/-- Over a whole sequence of ingested snapshots, a match id is reported
newly drafting at most once, and never when it is already in
`matchesDrafting`. -/
theorem ingestTrace_drafting_count (snaps : List (List LiveLeagueGame)) :
    ∀ (s : BotState) (m : ℤ),
      (m ∈ s.matchesDrafting →
        (((ingestTrace snaps s).map Prod.fst).flatten.count m) = 0) ∧
      (((ingestTrace snaps s).map Prod.fst).flatten.count m) ≤ 1 := by
  induction snaps with
  | nil => intro s m; exact ⟨fun _ => rfl, by simp [ingestTrace]⟩
  | cons snap rest ih =>
    intro s m
    obtain ⟨ha, hb, hc⟩ := processLiveGames_drafting_count snap s m
    obtain ⟨ha', hb'⟩ := ih (processLiveGames snap s).1 m
    have hmono := (processLiveGames_sets snap s).1
    simp only [ingestTrace, List.map_cons, List.flatten_cons, List.count_append]
    constructor
    · intro hm
      rw [ha hm, ha' (hmono hm)]
    · by_cases hm' : m ∈ (processLiveGames snap s).1.matchesDrafting
      · have h0 := ha' hm'
        omega
      · have hc0 : ((processLiveGames snap s).2.1.map (·.matchID)).count m = 0 := by
          by_contra hne
          exact hm' (hc (by omega))
        omega

/-- Every newly-drafting report comes from a snapshot observation that does
not classify as started. -/
theorem processLiveGames_drafting_obs (games : List LiveLeagueGame) :
    ∀ (s : BotState) (m : ℤ), m ∈ (processLiveGames games s).2.1.map (·.matchID) →
      ∃ g ∈ games, g.matchID = m ∧ isGameStarted g = false := by
  induction games with
  | nil => intro s m h; simp [processLiveGames] at h
  | cons game rest ih =>
    intro s m h
    simp only [processLiveGames] at h
    split_ifs at h with h1 h2 h3
    · obtain ⟨g, hg, hgm⟩ := ih _ m h
      exact ⟨g, List.mem_cons_of_mem _ hg, hgm⟩
    · obtain ⟨g, hg, hgm⟩ := ih _ m h
      exact ⟨g, List.mem_cons_of_mem _ hg, hgm⟩
    · obtain ⟨g, hg, hgm⟩ := ih _ m h
      exact ⟨g, List.mem_cons_of_mem _ hg, hgm⟩
    · rw [List.map_cons, List.mem_cons] at h
      rcases h with h | h
      · exact ⟨game, List.mem_cons_self _ _, h.symm, by simpa using h1⟩
      · obtain ⟨g, hg, hgm⟩ := ih _ m h
        exact ⟨g, List.mem_cons_of_mem _ hg, hgm⟩

/-- The `j`-th entry of an ingest trace is the report pair of processing
the `j`-th snapshot from some intermediate state. -/
theorem ingestTrace_get (snaps : List (List LiveLeagueGame)) :
    ∀ (s : BotState) (j : ℕ) (out : List Int × List Int),
      (ingestTrace snaps s)[j]? = some out →
      ∃ (snapJ : List LiveLeagueGame) (s0 : BotState), snaps[j]? = some snapJ ∧
        out.1 = (processLiveGames snapJ s0).2.1.map (·.matchID) := by
  induction snaps with
  | nil => intro s j out h; simp [ingestTrace] at h
  | cons snap rest ih =>
    intro s j out h
    cases j with
    | zero =>
      simp only [ingestTrace, List.getElem?_cons_zero, Option.some.injEq] at h
      exact ⟨snap, s, by simp, by rw [← h]⟩
    | succ j =>
      simp only [ingestTrace, List.getElem?_cons_succ] at h
      obtain ⟨snapJ, s0, hs, hout⟩ := ih (processLiveGames snap s).1 j out h
      exact ⟨snapJ, s0, by simpa using hs, hout⟩

/-- C4 (amended): over every sequence of live-match snapshots ingested
during a process lifetime, a match id appears in the newly-drafting output
at most once in total; and it never appears in the newly-drafting output of
an ingestion after one in which it appeared in the newly-started output,
provided every later snapshot observation of that match still classifies as
started (the code does not prevent a drafting report after a started report
when the upstream feed regresses a match to a not-started classification —
see the counterexample). -/
theorem ingest_report_order_spec :
    (∀ (snaps : List (List LiveLeagueGame)) (m : ℤ),
      (((ingestTrace snaps initState).map Prod.fst).flatten.count m) ≤ 1) ∧
    (∀ (snaps : List (List LiveLeagueGame)) (i j : ℕ) (outI outJ : List Int × List Int)
        (m : ℤ),
      (ingestTrace snaps initState)[i]? = some outI → m ∈ outI.2 → i < j →
      (ingestTrace snaps initState)[j]? = some outJ →
      (∀ g ∈ (snaps.drop (i + 1)).flatten, g.matchID = m → isGameStarted g = true) →
      m ∉ outJ.1) := by
  constructor
  · intro snaps m
    exact (ingestTrace_drafting_count snaps initState m).2
  · intro snaps i j outI outJ m hI hmI hij hJ hstart hmem
    obtain ⟨snapJ, s0, hsnapJ, hout1⟩ := ingestTrace_get snaps initState j outJ hJ
    rw [hout1] at hmem
    obtain ⟨g, hg, hgm, hgs⟩ := processLiveGames_drafting_obs snapJ s0 m hmem
    have hgJ : g ∈ (snaps.drop (i + 1)).flatten := by
      refine List.mem_flatten.mpr ⟨snapJ, ?_, hg⟩
      refine List.getElem?_mem (n := j - (i + 1)) ?_
      rw [List.getElem?_drop]
      rw [show i + 1 + (j - (i + 1)) = j by omega]
      exact hsnapJ
    have := hstart g hgJ hgm
    rw [hgs] at this
    exact Bool.false_ne_true this

/-- C4 counterexample: ingesting a snapshot in which match 1 classifies as
started and then one in which it classifies as drafting makes match 1
appear in the newly-started output of the first ingestion and in the
newly-drafting output of the second — a drafting report after a started
report, contradicting the claim for this snapshot sequence. -/
theorem ingest_report_order_claim_cex :
    (ingestTrace [[gameStartedOne], [gameDraftingOne]] initState).map Prod.snd =
      [[1], []] ∧
    (ingestTrace [[gameStartedOne], [gameDraftingOne]] initState).map Prod.fst =
      [[], [1]] := by
  decide

/-- C4 witness: for the two-snapshot sequence in which match 1 stays
started, match 1 is reported newly started in the first ingestion and is
absent from the newly-drafting output of the second. -/
theorem ingest_report_order_spec_witness :
    (ingestTrace [[gameStartedOne], [gameStartedOne]] initState)[0]? =
      some ([], [1]) ∧
    (1 : ℤ) ∈ [(1 : ℤ)] ∧ 0 < 1 ∧
    (ingestTrace [[gameStartedOne], [gameStartedOne]] initState)[1]? =
      some ([], []) ∧
    (∀ g ∈ (([[gameStartedOne], [gameStartedOne]] :
        List (List LiveLeagueGame)).drop (0 + 1)).flatten,
      g.matchID = 1 → isGameStarted g = true) ∧
    (1 : ℤ) ∉ (([], []) : List Int × List Int).1 :=
  ⟨by decide, by decide, by decide, by decide, by decide,
    ingest_report_order_spec.2 [[gameStartedOne], [gameStartedOne]] 0 1 ([], [1]) ([], []) 1
      (by decide) (by decide) (by decide) (by decide) (by decide)⟩

/-- C3: `isGameStarted` returns true iff the scoreboard duration is strictly
positive or the combined dire-plus-radiant pick count is at least 9; in
particular duration 0 with 4+4 picks yields false, duration 0 with 5+4
picks yields true, and duration 120.5 with no picks yields true. -/
theorem isGameStarted_spec :
    (∀ game : LiveLeagueGame, isGameStarted game = true ↔
      0 < game.scoreboard.duration ∨
        9 ≤ game.scoreboard.dire.picks.length + game.scoreboard.radiant.picks.length) ∧
    isGameStarted { matchID := 1, scoreboard :=
      { duration := 0, dire := { picks := [1, 2, 3, 4] },
        radiant := { picks := [5, 6, 7, 8] } } } = false ∧
    isGameStarted { matchID := 1, scoreboard :=
      { duration := 0, dire := { picks := [1, 2, 3, 4, 5] },
        radiant := { picks := [6, 7, 8, 9] } } } = true ∧
    isGameStarted { matchID := 1, scoreboard := { duration := 120.5 } } = true := by
  refine ⟨fun game => ?_, by decide, by decide, ?_⟩
  · unfold isGameStarted
    split_ifs with h1 h2 <;> simp_all
  · unfold isGameStarted
    norm_num

/-- C9: removing a guild's channels removes exactly the channels associated
with that guild: adding channel X under guild G into the empty registry and
then removing guild G's channels leaves the registry empty, and in general
an entry survives `removeGuildChannels` iff it was present and associated
with a different guild. -/
theorem removeGuildChannels_spec :
    removeGuildChannels "G" (addGuildChannel "G" "X" []) = [] ∧
    ∀ (channels : Channels) (g c gc : String),
      ((c, gc) ∈ removeGuildChannels g channels ↔ (c, gc) ∈ channels ∧ gc ≠ g) := by
  refine ⟨rfl, fun channels g c gc => ?_⟩
  simp [removeGuildChannels, List.mem_filter]

/-- C7: in the poll loop of `bot.run`, a failed live-games fetch doubles the
wait relative to the previous wait, capped at 15 minutes (900 seconds); a
successful fetch resets the wait to the base interval of 60 seconds; and no
wait ever slept by the loop exceeds 900 seconds. -/
theorem run_backoff_spec :
    (∀ prev : Nat, nextFetchWait prev true = min (2 * prev) 900) ∧
    (∀ prev : Nat, nextFetchWait prev false = 60) ∧
    (∀ (errs : List Bool) (w : Nat), w ∈ runWaits errs 60 → w ≤ 900) := by
  have hle : ∀ prev e, nextFetchWait prev e ≤ 900 := by
    intro prev e
    unfold nextFetchWait capWait
    split_ifs <;> omega
  refine ⟨fun prev => ?_, fun prev => ?_, ?_⟩
  · have h : nextFetchWait prev true = capWait (prev * 2) := rfl
    rw [h]
    unfold capWait
    split_ifs <;> omega
  · rfl
  · have general : ∀ (errs : List Bool) (start w : Nat), w ∈ runWaits errs start → w ≤ 900 := by
      intro errs
      induction errs with
      | nil => intro start w h; simp [runWaits] at h
      | cons e es ih =>
        intro start w h
        rw [runWaits] at h
        rcases List.mem_cons.mp h with h | h
        · exact h ▸ hle start e
        · exact ih _ w h
    exact fun errs w h => general errs 60 w h

/-- C7 witness: after four consecutive fetch failures starting from the base
interval, the loop's waits are 120, 240, 480, 900, and the capped wait of
900 seconds indeed does not exceed 900. -/
theorem run_backoff_spec_witness : 900 ∈ runWaits [true, true, true, true] 60 ∧ 900 ≤ 900 :=
  ⟨by decide, run_backoff_spec.2.2 [true, true, true, true] 900 (by decide)⟩

/-- C8: an API-client query succeeds iff the HTTP status is 200, the body
decodes, and the response-specific `checkResult` holds — equivalently, it
returns an error iff the HTTP status is not 200, the body fails to decode,
or the status check fails (each query performs a single HTTP exchange, so
there is no retry in the client); the in-body success convention is status
200 for live-league-games and hero-catalog responses, status 1 for
match-history responses, and an absent error field together with present
match details for match-details responses. -/
theorem getJSON_spec :
    (∀ res : HttpResponse LiveLeagueGamesResponse,
      exceptOk (getJSON LiveLeagueGamesResponse.checkResult res) = true ↔
        res.statusCode = 200 ∧ ∃ r, res.body = some r ∧ r.result.status = 200) ∧
    (∀ res : HttpResponse HeroesResponse,
      exceptOk (getJSON HeroesResponse.checkResult res) = true ↔
        res.statusCode = 200 ∧ ∃ r, res.body = some r ∧ r.result.status = 200) ∧
    (∀ res : HttpResponse MatchHistoryResponse,
      exceptOk (getJSON MatchHistoryResponse.checkResult res) = true ↔
        res.statusCode = 200 ∧ ∃ r, res.body = some r ∧ r.result.status = 1) ∧
    (∀ res : HttpResponse MatchDetailsResponse,
      exceptOk (getJSON MatchDetailsResponse.checkResult res) = true ↔
        res.statusCode = 200 ∧ ∃ r, res.body = some r ∧
          r.result.error = none ∧ r.result.matchDetails.isSome = true) := by
  have general : ∀ (ρ : Type) (check : ρ → Bool) (res : HttpResponse ρ),
      exceptOk (getJSON check res) = true ↔
        res.statusCode = 200 ∧ ∃ r, res.body = some r ∧ check r = true := by
    intro ρ check res
    rcases res with ⟨sc, body⟩
    unfold getJSON exceptOk
    rcases body with _ | r
    · split_ifs <;> simp_all
    · by_cases hc : check r = true
      all_goals split_ifs <;> simp_all
  refine ⟨fun res => ?_, fun res => ?_, fun res => ?_, fun res => ?_⟩
  · rw [general]
    simp [LiveLeagueGamesResponse.checkResult]
  · rw [general]
    simp [HeroesResponse.checkResult]
  · rw [general]
    simp [MatchHistoryResponse.checkResult]
  · rw [general]
    simp [MatchDetailsResponse.checkResult]

end Timatch
